import Mathlib

/-!
Shallow embedding of the go-verifiers rollout execution core:
parsers (XML tag extraction), rubrics (weighted reward aggregation),
multi-turn rollout loop, environment-group routing, batch processing
and math-answer comparison, together with theorems settling the
specification claims.

Go `float64` values are modelled as `ℚ`; all values arising in the
claims are exactly representable decimals, so no rounding behaviour is
at issue.  Go maps are modelled as association lists with
prepend-overwrite and first-match lookup.  Errors (`error` values) are
modelled with `Except String`.
-/

namespace Verifiers

/-- Go error values, modelled by their message. -/
abbrev GoErr := String

/-! ## String utilities (Go `strings` package fragments) -/

/-- ASCII whitespace, the fragment of `unicode.IsSpace` relevant here. -/
def isSpaceChar (c : Char) : Bool :=
  c == ' ' || c == '\t' || c == '\n' || c == '\r' || c == '\x0b' || c == '\x0c'

/-- Embedding of `strings.TrimSpace` on a character list. -/
def trimChars (l : List Char) : List Char :=
  ((l.dropWhile isSpaceChar).reverse.dropWhile isSpaceChar).reverse

/-- Embedding of `strings.TrimSpace`. -/
def trimString (s : String) : String :=
  ⟨trimChars s.data⟩

/-- Embedding of `strings.Contains`: `needle` occurs as a contiguous substring of `hay`. -/
def containsSub (needle : List Char) : List Char → Bool
  | [] => needle.isEmpty
  | c :: rest => needle.isPrefixOf (c :: rest) || containsSub needle rest

/-- Embedding of `strings.Contains` on strings. -/
def strContains (hay needle : String) : Bool :=
  containsSub needle.data hay.data

/-- Embedding of `strings.HasPrefix`. -/
def strStartsWith (s pre : String) : Bool :=
  pre.data.isPrefixOf s.data

/-- The characters strictly before the first occurrence of `needle`,
or `none` when `needle` does not occur. -/
def takeUntilSub (needle : List Char) : List Char → Option (List Char)
  | [] => if needle.isEmpty then some [] else none
  | c :: rest =>
    if needle.isPrefixOf (c :: rest) then some []
    else (takeUntilSub needle rest).map (fun t => c :: t)

/-- Embedding of `strings.SplitN(s, sep, 2)` for a single-character separator:
`some (before, after)` at the first occurrence, `none` when absent. -/
def splitFirstChar (sep : Char) : List Char → Option (List Char × List Char)
  | [] => none
  | c :: rest =>
    if c = sep then some ([], rest)
    else (splitFirstChar sep rest).map (fun p => (c :: p.1, p.2))

/-- Embedding of `strings.ToLower` restricted to ASCII. -/
def toLowerString (s : String) : String :=
  ⟨s.data.map (fun c => if 'A' ≤ c ∧ c ≤ 'Z' then Char.ofNat (c.toNat + 32) else c)⟩

/-! ## XML tag extraction (pkg/parsers/xml_parser.go)

`ParseXML` matches each tag with the Go regex `(?s)<tag>\s*(.*?)\s*</tag>`
(first match, non-greedy, dot-matches-newline).  The leftmost match starts
at the first `<tag>` occurrence that is followed by a `</tag>`; since any
`</tag>` occurring after a later `<tag>` also occurs after the first one,
this is the first `<tag>` occurrence, provided a `</tag>` follows it.
The greedy `\s*` bordering the lazy group strip all leading and trailing
whitespace from the captured group, so the group is the trimmed inner text. -/

/-- Inner text of the first `openT …​ closeT` pair: at the first occurrence
of `openT`, the characters up to the next `closeT` (none if no close
follows the first open, in which case none follows any later open either). -/
def findTagInner (openT closeT : List Char) : List Char → Option (List Char)
  | [] => none
  | c :: rest =>
    if openT.isPrefixOf (c :: rest) then
      takeUntilSub closeT (List.drop openT.length (c :: rest))
    else findTagInner openT closeT rest

/-- The capture group of `(?s)<tag>\s*(.*?)\s*</tag>` on `text`:
the inner text of the first tag pair with surrounding whitespace consumed
by the bordering `\s*`. -/
def extractTagGroup (tag : String) (text : String) : Option String :=
  (findTagInner ('<' :: tag.data ++ ['>']) ('<' :: '/' :: tag.data ++ ['>']) text.data).map
    (fun l => ⟨trimChars l⟩)

/-- A field declaration: canonical name plus interchangeable alternatives. -/
structure XMLField where
  canonical : String
  alternatives : List String
deriving Repr, DecidableEq

/-- The XML parser: ordered field declarations and a designated answer field. -/
structure XMLParser where
  fields : List XMLField
  answerField : String
deriving Repr, DecidableEq

/-- Embedding of `XMLParser.ParseXML`: for each declared field and each alternative tag
name, store the first-match capture group (trimmed again when `strip`)
under the alternative's own name.  The result map is an association list
with first-match lookup; prepending models Go map overwrite.
`ParseXML` only errors on regex compilation, which cannot fail for the
patterns built here, so it is total. -/
def parseXMLFields (fields : List XMLField) (text : String) (strip : Bool) :
    List (String × String) :=
  fields.foldl
    (fun acc field =>
      field.alternatives.foldl
        (fun acc' alt =>
          match extractTagGroup alt text with
          | none => acc'
          | some c => (alt, if strip then trimString c else c) :: acc')
        acc)
    []

/-- Embedding of `XMLParser.Parse`: run `ParseXML` with strip, return the answer field's
value, or the empty string when the answer field was never matched. -/
def xmlParse (p : XMLParser) (text : String) : String :=
  match (parseXMLFields p.fields text true).lookup p.answerField with
  | some a => a
  | none => ""

/-- The think/answer parser used by the scenario in the spec
(`NewXMLParser(["think","answer"], "answer")`). -/
def thinkAnswerParser : XMLParser :=
  { fields := [⟨"think", ["think"]⟩, ⟨"answer", ["answer"]⟩], answerField := "answer" }

/-- The parser built by `NewToolEnv`:
`NewXMLParser(["think", ["tool","answer"]], "answer")`. -/
def toolEnvParser : XMLParser :=
  { fields := [⟨"think", ["think"]⟩, ⟨"tool", ["tool", "answer"]⟩], answerField := "answer" }

/-- The parser built by `NewCodeMathEnv` and `NewCodeMathRubric`:
`NewXMLParser(["reasoning","code","answer"], "answer")`. -/
def codeMathParser : XMLParser :=
  { fields := [⟨"reasoning", ["reasoning"]⟩, ⟨"code", ["code"]⟩, ⟨"answer", ["answer"]⟩],
    answerField := "answer" }

/-! ## Numeric comparison (pkg/utils/concurrent.go lines 284-336)

`strconv.ParseFloat` is modelled on decimal notation (optional sign,
digits with optional fraction, optional exponent), yielding an exact `ℚ`;
`strconv.FormatFloat(f, 'f', -1, 64)` is modelled as the shortest exact
decimal rendering, which agrees with Go on every decimally-representable
value arising here. -/

def isDigitChar (c : Char) : Bool := '0' ≤ c ∧ c ≤ '9'

def digitsToNat (l : List Char) : Nat :=
  l.foldl (fun n c => n * 10 + (c.toNat - '0'.toNat)) 0

/-- Split an optional leading sign. Returns (negative, rest). -/
def splitSign : List Char → Bool × List Char
  | '-' :: r => (true, r)
  | '+' :: r => (false, r)
  | l => (false, l)

/-- A decimal floating value `n · 10^e`, exact.  (`float64` values in
this code path are parsed from and re-formatted to decimal strings; all
values arising in the claims are exactly representable, so the exact
decimal model agrees with Go's binary floats on them.) -/
structure DecFloat where
  n : ℤ
  e : ℤ
deriving Repr, DecidableEq

/-- The rational value of a `DecFloat`. -/
def DecFloat.val (d : DecFloat) : ℚ := (d.n : ℚ) * (10 : ℚ) ^ d.e

/-- Model of `strconv.ParseFloat(s, 64)` on decimal notation, exact;
`none` on any input Go would reject (and on the non-decimal forms — hex,
Inf, NaN — which never arise in this repository's data). -/
def parseFloatDec (s : String) : Option DecFloat :=
  let (neg, r1) := splitSign s.data
  let intD := r1.takeWhile isDigitChar
  let r2 := r1.drop intD.length
  let (fracD, r3) :=
    match r2 with
    | '.' :: r => (r.takeWhile isDigitChar, r.drop (r.takeWhile isDigitChar).length)
    | _ => ([], r2)
  if intD = [] ∧ fracD = [] then none
  else
    let mant : ℤ := digitsToNat (intD ++ fracD)
    let signed : ℤ := if neg then -mant else mant
    let e0 : ℤ := -(fracD.length : ℤ)
    match r3 with
    | [] => some ⟨signed, e0⟩
    | 'e' :: r =>
      let (eneg, ed) := splitSign r
      let eD := ed.takeWhile isDigitChar
      if eD = [] ∨ ed.drop eD.length ≠ [] then none
      else some ⟨signed, e0 + (if eneg then -(digitsToNat eD : ℤ) else (digitsToNat eD : ℤ))⟩
    | 'E' :: r =>
      let (eneg, ed) := splitSign r
      let eD := ed.takeWhile isDigitChar
      if eD = [] ∨ ed.drop eD.length ≠ [] then none
      else some ⟨signed, e0 + (if eneg then -(digitsToNat eD : ℤ) else (digitsToNat eD : ℤ))⟩
    | _ => none

/-- Strip factors of 10 from the mantissa (fuelled; the fuel bounds the
number of strippable zeros, which the digit count bounds). -/
def stripTens : Nat → Nat → ℤ → Nat × ℤ
  | 0, m, e => (m, e)
  | fuel + 1, m, e =>
    if m ≠ 0 ∧ m % 10 = 0 then stripTens fuel (m / 10) (e + 1) else (m, e)

/-- Render `m` with a decimal point `k` digits from the right. -/
def placeDecimalPoint (m k : Nat) : String :=
  if k = 0 then Nat.repr m
  else
    let s := Nat.repr m
    let padded := if s.length ≤ k then ⟨List.replicate (k + 1 - s.length) '0' ++ s.data⟩ else s
    let digits := padded.data
    ⟨digits.take (digits.length - k) ++ '.' :: digits.drop (digits.length - k)⟩

/-- Model of `strconv.FormatFloat(f, 'f', -1, 64)`: shortest exact
decimal.  The mantissa is first stripped of trailing zeros, so no
redundant digits are emitted, matching Go's shortest round-trip
formatting on decimal values. -/
def formatFloatShortest (d : DecFloat) : String :=
  let sign := if d.n < 0 then "-" else ""
  let (m, e) := stripTens d.n.natAbs.succ d.n.natAbs d.e
  if m = 0 then "0"
  else if 0 ≤ e then sign ++ Nat.repr (m * 10 ^ e.toNat)
  else sign ++ placeDecimalPoint m (-e).toNat

/-- Embedding of `utils.NormalizeNumber`: trim, delete `,` `$` and spaces, then
round-trip through float parsing to a canonical decimal form when the
result parses as a number. -/
def normalizeNumber (s : String) : String :=
  let t : String := ⟨(trimString s).data.filter (fun c => ¬(c = ',' ∨ c = '$' ∨ c = ' '))⟩
  match parseFloatDec t with
  | some d => formatFloatShortest d
  | none => t

/-- The Go comparison `num1 - num2 < 1e-9`, decided exactly over a common power-of-ten
denominator. -/
def decFloatDiffLtEps (d1 d2 : DecFloat) : Bool :=
  let m : ℤ := min (min d1.e d2.e) (-9)
  d1.n * 10 ^ (d1.e - m).toNat - d2.n * 10 ^ (d2.e - m).toNat < 10 ^ ((-9 : ℤ) - m).toNat

/-- Embedding of `utils.CompareMathAnswers`: literal equality, equality after
normalization, or numeric difference below `1e-9` in both directions. -/
def compareMathAnswers (answer1 answer2 : String) : Bool :=
  if answer1 = answer2 then true
  else
    let norm1 := normalizeNumber answer1
    let norm2 := normalizeNumber answer2
    if norm1 = norm2 then true
    else
      match parseFloatDec norm1, parseFloatDec norm2 with
      | some num1, some num2 => decFloatDiffLtEps num1 num2 && decFloatDiffLtEps num2 num1
      | _, _ => false

/-! ## Rubrics (src/unnamed/part_003, part_005) -/

/-- Embedding of `types.RewardFunc`: `(parsed, groundTruth) → (float64, error)`.
The `context.Context` parameter carries no data used by any reward
function in the repository and is omitted. -/
abbrev RewardFunc := String → String → Except GoErr ℚ

/-- Embedding of `BaseRubric`: an ordered list of reward functions and their weights. -/
structure BaseRubric where
  rewardFuncs : List RewardFunc
  rewardWeights : List ℚ

/-- The score of the default exact-match reward function. -/
def exactMatchVal (parsed groundTruth : String) : ℚ :=
  if trimString parsed = trimString groundTruth then 1 else 0

/-- The default exact-match reward function installed by `NewBaseRubric`. -/
def exactMatchReward : RewardFunc := fun parsed groundTruth =>
  .ok (exactMatchVal parsed groundTruth)

/-- Embedding of `NewBaseRubric`: one exact-match function, weight 1.0. -/
def newBaseRubric : BaseRubric :=
  { rewardFuncs := [exactMatchReward], rewardWeights := [1] }

/-- The accumulation loop of `BaseRubric.ComputeReward`: runs the
functions in order against the weights (weight defaults to 1.0 when the
index is past the end of the weight list), aborting at the first error,
and returns `(totalReward, totalWeight)`. -/
def runRewardFuncs (parsed groundTruth : String) :
    List RewardFunc → List ℚ → Except GoErr (ℚ × ℚ)
  | [], _ => .ok (0, 0)
  | fn :: rest, ws =>
    let weight := match ws with
      | [] => 1
      | w :: _ => w
    match fn parsed groundTruth with
    | .error e => .error e
    | .ok reward =>
      match runRewardFuncs parsed groundTruth rest ws.tail with
      | .error e => .error e
      | .ok (tr, tw) => .ok (reward * weight + tr, weight + tw)

/-- Embedding of `BaseRubric.ComputeReward`: weighted sum divided by total weight when
the total weight is positive, 0.0 otherwise; an empty function list gives
0.0; any function's error is propagated. -/
def BaseRubric.computeReward (r : BaseRubric) (parsed groundTruth : String) :
    Except GoErr ℚ :=
  if r.rewardFuncs.isEmpty then .ok 0
  else
    match runRewardFuncs parsed groundTruth r.rewardFuncs r.rewardWeights with
    | .error e => .error e
    | .ok (totalReward, totalWeight) =>
      .ok (if 0 < totalWeight then totalReward / totalWeight else 0)

/-- Embedding of `MultiMetricRubric`: the base rubric plus the name-keyed metric map.
`NewMultiMetricRubric` embeds `*NewBaseRubric()`, so the default
exact-match function (weight 1.0) is inherited. -/
structure MultiMetricRubric where
  base : BaseRubric
  metrics : List (String × RewardFunc)

/-- Embedding of `NewMultiMetricRubric`. -/
def newMultiMetricRubric : MultiMetricRubric :=
  { base := newBaseRubric, metrics := [] }

/-- Embedding of `MultiMetricRubric.AddMetric`: appends to the function and weight
lists and records the metric by name. -/
def MultiMetricRubric.addMetric (r : MultiMetricRubric) (name : String)
    (fn : RewardFunc) (weight : ℚ) : MultiMetricRubric :=
  { base := { rewardFuncs := r.base.rewardFuncs ++ [fn],
              rewardWeights := r.base.rewardWeights ++ [weight] },
    metrics := (name, fn) :: r.metrics }

/-- A member of a `RubricGroup`, seen through the `Rubric` interface:
its `ComputeReward` behaviour and its `GetRewardWeights` list. -/
structure GroupMember where
  computeReward : String → String → Except GoErr ℚ
  rewardWeights : List ℚ

/-- The weight `RubricGroup.ComputeReward` gives one member: the sum of
its function weights, replaced by 1.0 when both the sum is zero and the
weight list is empty. -/
def memberWeight (m : GroupMember) : ℚ :=
  let s := m.rewardWeights.sum
  if s = 0 ∧ m.rewardWeights = [] then 1 else s

/-- The accumulation loop of `RubricGroup.ComputeReward`: erroring
members are skipped; each surviving member contributes
`score * memberWeight`. Returns `(totalScore, totalWeight)`. -/
def runGroupMembers (parsed groundTruth : String) :
    List GroupMember → ℚ × ℚ
  | [] => (0, 0)
  | m :: rest =>
    let (tr, tw) := runGroupMembers parsed groundTruth rest
    match m.computeReward parsed groundTruth with
    | .error _ => (tr, tw)
    | .ok score =>
      let w := memberWeight m
      (score * w + tr, w + tw)

/-- Embedding of `RubricGroup.ComputeReward`: weight-normalized sum over the
non-erroring members; 0.0 (without error) when the surviving total
weight is not positive. -/
def rubricGroupComputeReward (members : List GroupMember)
    (parsed groundTruth : String) : Except GoErr ℚ :=
  let (totalScore, totalWeight) := runGroupMembers parsed groundTruth members
  .ok (if 0 < totalWeight then totalScore / totalWeight else 0)

/-! ## JSON values (encoding/json fragments)

`interface{}` values decoded from JSON are modelled by `GoVal`;
`json.Unmarshal` into `map[string]interface{}` is modelled by a
recursive-descent parser over the input characters (fuelled by input
length; every recursive call consumes at least one character). -/

inductive GoVal where
  | null : GoVal
  | boolean : Bool → GoVal
  | num : ℚ → GoVal
  | str : String → GoVal
  | arr : List GoVal → GoVal
  | obj : List (String × GoVal) → GoVal
deriving Repr, BEq

/-- JSON whitespace skip. -/
def skipWs (l : List Char) : List Char := l.dropWhile isSpaceChar

/-- Body of a JSON string after the opening quote; handles the common
single-character escapes (`\u` sequences never arise in this
repository's data and are rejected). -/
def jsonStringAux : List Char → Option (List Char × List Char)
  | [] => none
  | '"' :: rest => some ([], rest)
  | '\\' :: c :: rest =>
    let esc : Option Char :=
      if c = '"' then some '"'
      else if c = '\\' then some '\\'
      else if c = '/' then some '/'
      else if c = 'n' then some '\n'
      else if c = 't' then some '\t'
      else if c = 'r' then some '\r'
      else none
    match esc with
    | none => none
    | some e => (jsonStringAux rest).map (fun p => (e :: p.1, p.2))
  | c :: rest => (jsonStringAux rest).map (fun p => (c :: p.1, p.2))

/-- A JSON number (sign, digits, optional fraction and exponent), exact. -/
def jsonNumber (l : List Char) : Option (ℚ × List Char) :=
  let (neg, r1) := match l with
    | '-' :: r => (true, r)
    | r => (false, r)
  let intD := r1.takeWhile isDigitChar
  if intD = [] then none
  else
    let r2 := r1.drop intD.length
    let (fracOk, fracD, r3) :=
      match r2 with
      | '.' :: r =>
        let fd := r.takeWhile isDigitChar
        (!fd.isEmpty, fd, r.drop fd.length)
      | _ => (true, [], r2)
    if fracOk = false then none
    else
      let mant : ℚ := (digitsToNat intD : ℚ) + (digitsToNat fracD : ℚ) / (10 : ℚ) ^ fracD.length
      let signed : ℚ := if neg then -mant else mant
      match r3 with
      | 'e' :: r =>
        let (eneg, ed) := splitSign r
        let eD := ed.takeWhile isDigitChar
        if eD = [] then none
        else some (signed * (10 : ℚ) ^ (if eneg then -(digitsToNat eD : ℤ) else (digitsToNat eD : ℤ)),
                   ed.drop eD.length)
      | 'E' :: r =>
        let (eneg, ed) := splitSign r
        let eD := ed.takeWhile isDigitChar
        if eD = [] then none
        else some (signed * (10 : ℚ) ^ (if eneg then -(digitsToNat eD : ℤ) else (digitsToNat eD : ℤ)),
                   ed.drop eD.length)
      | _ => some (signed, r3)

/-- Parsing mode: a single value, array elements, or object members. -/
inductive JMode where
  | value : JMode
  | arrElems : JMode
  | objMembers : JMode

/-- Fuelled JSON parser core. -/
def jsonAux : Nat → JMode → List Char → Option (GoVal × List Char)
  | 0, _, _ => none
  | fuel + 1, .value, l =>
    match skipWs l with
    | [] => none
    | 'n' :: r => if ['u', 'l', 'l'].isPrefixOf r then some (.null, r.drop 3) else none
    | 't' :: r => if ['r', 'u', 'e'].isPrefixOf r then some (.boolean true, r.drop 3) else none
    | 'f' :: r => if ['a', 'l', 's', 'e'].isPrefixOf r then some (.boolean false, r.drop 4) else none
    | '"' :: r => (jsonStringAux r).map (fun p => (.str ⟨p.1⟩, p.2))
    | '[' :: r =>
      match skipWs r with
      | ']' :: rest => some (.arr [], rest)
      | r' => jsonAux fuel .arrElems r'
    | c :: r =>
      if c = '\x7b' then
        match skipWs r with
        | c' :: rest =>
          if c' = '\x7d' then some (.obj [], rest)
          else jsonAux fuel .objMembers (c' :: rest)
        | [] => none
      else jsonNumber (c :: r) |>.map (fun p => (.num p.1, p.2))
  | fuel + 1, .arrElems, l =>
    match jsonAux fuel .value l with
    | none => none
    | some (v, rest) =>
      match skipWs rest with
      | ',' :: r2 =>
        match jsonAux fuel .arrElems r2 with
        | some (.arr es, rest2) => some (.arr (v :: es), rest2)
        | _ => none
      | ']' :: r2 => some (.arr [v], r2)
      | _ => none
  | fuel + 1, .objMembers, l =>
    match skipWs l with
    | '"' :: r =>
      match jsonStringAux r with
      | none => none
      | some (k, r2) =>
        match skipWs r2 with
        | ':' :: r3 =>
          match jsonAux fuel .value r3 with
          | none => none
          | some (v, rest) =>
            match skipWs rest with
            | ',' :: r4 =>
              match jsonAux fuel .objMembers r4 with
              | some (.obj ms, rest2) => some (.obj ((⟨k⟩, v) :: ms), rest2)
              | _ => none
            | c :: r4 =>
              if c = '\x7d' then some (.obj [(⟨k⟩, v)], r4) else none
            | [] => none
        | _ => none
    | _ => none

/-- Embedding of `json.Unmarshal` of a full document into `interface{}`. -/
def jsonParse (s : String) : Option GoVal :=
  match jsonAux (2 * s.length + 8) .value s.data with
  | some (v, rest) => if skipWs rest = [] then some v else none
  | none => none

/-- Embedding of `json.Unmarshal` into `map[string]interface{}`: the document must be
a single JSON object (a `null` document leaves the map nil, modelled as
`none` too, since every use in the repository treats the two alike). -/
def jsonUnmarshalObj (s : String) : Option (List (String × GoVal)) :=
  match jsonParse s with
  | some (.obj ms) => some ms
  | _ => none

/-! ## Tool rubric (pkg/rubrics/tool_rubric.go) -/

/-- A registered tool, seen through the `tools.Tool` interface: its name
and its execution behaviour (result already flattened to text, as
`ExecuteTool` does for the repository's tools). -/
structure GoTool where
  name : String
  execute : List (String × GoVal) → Except GoErr String

/-- The score of `ToolRubric`'s `correct_answer` metric: re-extract the
answer field when present and non-empty, then trimmed exact match. -/
def toolCorrectAnswerVal (parser : XMLParser) (parsed groundTruth : String) : ℚ :=
  let fields := parseXMLFields parser.fields parsed true
  let parsed' := match fields.lookup "answer" with
    | some a => if a ≠ "" then a else parsed
    | none => parsed
  if trimString parsed' = trimString groundTruth then 1 else 0

/-- Embedding of `ToolRubric`'s `correct_answer` metric. -/
def toolCorrectAnswerFunc (parser : XMLParser) : RewardFunc := fun parsed groundTruth =>
  .ok (toolCorrectAnswerVal parser parsed groundTruth)

/-- Embedding of `strings.Split` on a non-empty separator (fuelled by input length:
every step consumes at least the separator). -/
def splitSubAux (sep : List Char) : Nat → List Char → List (List Char)
  | 0, l => [l]
  | fuel + 1, l =>
    match takeUntilSub sep l with
    | none => [l]
    | some pre => pre :: splitSubAux sep fuel (l.drop (pre.length + sep.length))

/-- Embedding of `strings.Split(s, sep)` for non-empty `sep`. -/
def splitSub (s sep : String) : List String :=
  (splitSubAux sep.data (s.length + 1) s.data).map (fun l => ⟨l⟩)

/-- Embedding of `ToolRubric.evaluateFormat`: per message (split on "\n---\n"):
+0.3 for think open and close tags, +0.4 for tool-or-answer open and
close tags, +0.3 for a successful parse (always succeeds) with +0.1
bonuses for non-empty think and tool-or-answer fields, capped at 1.0;
averaged over the messages. -/
def evaluateFormat (parser : XMLParser) (response : String) : ℚ :=
  let messages := splitSub response "\n---\n"
  let messages := if messages = [] then [response] else messages
  let totalScore := messages.foldl
    (fun acc msg =>
      let s1 : ℚ := if strContains msg "<think>" ∧ strContains msg "</think>" then 0.3 else 0
      let hasToolTag := strContains msg "<tool>" ∧ strContains msg "</tool>"
      let hasAnswerTag := strContains msg "<answer>" ∧ strContains msg "</answer>"
      let s2 : ℚ := if hasToolTag ∨ hasAnswerTag then 0.4 else 0
      let fields := parseXMLFields parser.fields msg true
      let s3 : ℚ := 0.3 +
        (if (fields.lookup "think").getD "" ≠ "" then 0.1 else 0) +
        (if (fields.lookup "tool").getD "" ≠ "" ∨ (fields.lookup "answer").getD "" ≠ "" then 0.1 else 0)
      let score := s1 + s2 + s3
      acc + (if 1 < score then 1 else score))
    0
  if messages.length ≠ 0 then totalScore / messages.length else 0

/-- Embedding of `ToolRubric.extractToolCalls`: the trimmed non-empty contents of each
`<tool>…​</tool>` pair whose close tag is not at position 0 of its part. -/
def extractToolCalls (response : String) : List String :=
  ((splitSub response "<tool>").drop 1).foldr
    (fun part acc =>
      match takeUntilSub ['<', '/', 't', 'o', 'o', 'l', '>'] part.data with
      | some pre =>
        if 0 < pre.length then
          let t := trimString ⟨pre⟩
          if t ≠ "" then t :: acc else acc
        else acc
      | none => acc)
    []

/-- Whether one extracted tool-call payload is valid: parses as a JSON
object, names a registered tool, and carries a non-null `args`. -/
def isValidToolCall (tools : List GoTool) (toolJSON : String) : Bool :=
  match jsonUnmarshalObj toolJSON with
  | none => false
  | some m =>
    match m.lookup "name" with
    | some (.str nm) =>
      nm ≠ "" && tools.any (fun t => t.name = nm) &&
        (match m.lookup "args" with
         | none => false
         | some .null => false
         | some _ => true)
    | _ => false

/-- Embedding of `ToolRubric.evaluateToolUsage`: 0.5 when no tool payloads are
present; else 1.0 if at least one is valid, 0.0 otherwise. -/
def evaluateToolUsage (tools : List GoTool) (response : String) : ℚ :=
  let toolCalls := extractToolCalls response
  if toolCalls = [] then 0.5
  else if toolCalls.any (isValidToolCall tools) then 1 else 0

/-- Embedding of `NewToolRubric`: starting from `NewMultiMetricRubric()` (which
inherits the base exact-match function at weight 1.0), registers
"correct_answer" (0.6), "format" (0.2) and "tool_usage" (0.2). -/
def newToolRubric (toolList : List GoTool) (parser : XMLParser) : MultiMetricRubric :=
  ((newMultiMetricRubric.addMetric "correct_answer" (toolCorrectAnswerFunc parser) 0.6).addMetric
      "format" (fun response _ => .ok (evaluateFormat parser response)) 0.2).addMetric
    "tool_usage" (fun response _ => .ok (evaluateToolUsage toolList response)) 0.2

/-! ## Messages, rollouts and the multi-turn loop (src/unnamed/part_001) -/

/-- Embedding of `types.Message`. -/
structure Message where
  role : String
  content : String
deriving Repr, DecidableEq

/-- Embedding of `types.Rollout`. -/
structure Rollout where
  messages : List Message
  response : String
  score : ℚ
deriving Repr, DecidableEq

/-- A JSON tool execution recorded in conversation state
(`rubrics.ToolExecution`). -/
structure ToolExecution where
  toolName : String
  args : List (String × GoVal)
  result : String
  success : Bool

/-- A code evaluation recorded in conversation state by `CodeMathEnv`. -/
structure CodeExecution where
  code : String
  output : String
  success : Bool

/-- Dynamic (`interface{}`) values stored in conversation state. -/
inductive GoDyn where
  | str : String → GoDyn
  | boolean : Bool → GoDyn
  | num : ℚ → GoDyn
  | json : GoVal → GoDyn
  | toolExecs : List ToolExecution → GoDyn
  | codeExecs : List CodeExecution → GoDyn

/-- Conversation state `map[string]interface{}`: association list with
prepend-overwrite and first-match lookup. -/
abbrev GoMap := List (String × GoDyn)

/-- A multi-turn environment, seen through the two hook methods of the
`MultiTurnEnvironment` interface. -/
structure MTEnv where
  isCompleted : List Message → GoMap → Bool
  envResponse : List Message → GoMap → Except GoErr (Message × GoMap)

/-- An inference client (`types.Client`), modelled as a function of the
message history. -/
structure MTClient where
  createChatCompletion : List Message → Except GoErr String

/-- The effective turn budget: `maxTurns`, or 10 when a non-positive
value is supplied (`if maxTurns <= 0 { maxTurns = 10 }`). -/
def effMaxTurns (maxTurns : Int) : Nat :=
  if maxTurns ≤ 0 then 10 else maxTurns.toNat

/-- The loop state on exit: working messages, completion trace,
conversation state and the final turn counter. -/
structure LoopResult where
  msgs : List Message
  completion : List Message
  state : GoMap
  turn : Nat

/-- The loop of `BaseMultiTurnRollout` (`for turn < maxTurns`), with fuel
`maxTurns - turn`; the fuel mirrors the loop guard exactly, so
termination of the Go loop is termination of this structural recursion.
The turn counter increments exactly once per assistant message appended
from the client. -/
def mtLoopGo (env : MTEnv) (client : MTClient) (maxTurns : Nat) :
    Nat → List Message → List Message → GoMap → Nat → Except GoErr LoopResult
  | 0, msgs, completion, state, turn => .ok ⟨msgs, completion, state, turn⟩
  | fuel + 1, msgs, completion, state, turn =>
    if env.isCompleted msgs state then .ok ⟨msgs, completion, state, turn⟩
    else
      match client.createChatCompletion msgs with
      | .error e => .error ("failed to get model response at turn " ++ toString turn ++ ": " ++ e)
      | .ok response =>
        let hasError := strStartsWith response "[ERROR]"
        let assistantMsg : Message := ⟨"assistant", response⟩
        let msgs' := msgs ++ [assistantMsg]
        let completion' := completion ++ [assistantMsg]
        let turn' := turn + 1
        if env.isCompleted msgs' state ∨ maxTurns ≤ turn' ∨ hasError then
          .ok ⟨msgs', completion', state, turn'⟩
        else
          match env.envResponse msgs' state with
          | .error e => .error ("failed to get environment response at turn " ++ toString turn' ++ ": " ++ e)
          | .ok (envMsg, state') =>
            mtLoopGo env client maxTurns fuel (msgs' ++ [envMsg]) (completion' ++ [envMsg]) state' turn'

/-- The last assistant message's content in the completion trace
(scanned from the end), or the empty string. -/
def lastAssistantContent (completion : List Message) : String :=
  ((completion.reverse.find? (fun m => m.role == "assistant")).map (fun m => m.content)).getD ""

/-- Embedding of `BaseMultiTurnRollout`: copy the prompt, seed state with the answer,
run the loop, and package transcript, final response and score 0.0
(scoring is left to the concrete subtype).  Also returns the final turn
counter — the number of assistant messages the loop appended. -/
def baseMultiTurnRollout (env : MTEnv) (client : MTClient) (prompt : List Message)
    (answer : String) (maxTurns : Int) : Except GoErr (Rollout × Nat) :=
  let state : GoMap := [("answer", .str answer)]
  let maxT := effMaxTurns maxTurns
  match mtLoopGo env client maxT maxT prompt [] state 0 with
  | .error e => .error e
  | .ok res =>
    .ok ({ messages := res.msgs, response := lastAssistantContent res.completion, score := 0 },
         res.turn)

/-! ## Concrete multi-turn environments and their Rollout methods -/

/-- A configured parser, seen through the `parsers.Parser` interface. -/
structure ParserIface where
  parse : String → Except GoErr String

/-- A configured rubric, seen through the `rubrics.Rubric` interface. -/
structure RubricIface where
  computeReward : String → String → Except GoErr ℚ

/-- Embedding of `DialogMultiTurnEnv.IsCompleted`: the last message contains the
completion keyword. -/
def dialogIsCompleted (keyword : String) (messages : List Message) (_ : GoMap) : Bool :=
  match messages.getLast? with
  | none => false
  | some m => strContains m.content keyword

/-- Embedding of `DialogMultiTurnEnv.EnvResponse`: a fixed nudge repeating the keyword
instruction. -/
def dialogEnvResponse (keyword : String) (_ : List Message) (state : GoMap) :
    Except GoErr (Message × GoMap) :=
  .ok (⟨"user", "Please continue or say '" ++ keyword ++ "' when finished."⟩, state)

/-- A `DialogMultiTurnEnv` as the generic loop sees it. -/
def dialogEnv (keyword : String) : MTEnv :=
  { isCompleted := dialogIsCompleted keyword, envResponse := dialogEnvResponse keyword }

/-- Embedding of `DialogMultiTurnEnv.Rollout`: run the generic loop, then — when a
parser is configured and the response is non-empty — re-parse and
re-score, propagating parse and scoring errors. -/
def dialogRollout (env : MTEnv) (client : MTClient) (prompt : List Message)
    (answer : String) (maxTurns : Int)
    (parser : Option ParserIface) (rubric : Option RubricIface) : Except GoErr Rollout :=
  match baseMultiTurnRollout env client prompt answer maxTurns with
  | .error e => .error e
  | .ok (rollout, _) =>
    match parser with
    | none => .ok rollout
    | some p =>
      if rollout.response ≠ "" then
        match p.parse rollout.response with
        | .error e => .error ("failed to parse response: " ++ e)
        | .ok parsed =>
          match rubric with
          | none => .ok rollout
          | some rb =>
            match rb.computeReward parsed answer with
            | .error e => .error ("failed to compute reward: " ++ e)
            | .ok score => .ok { rollout with score := score }
      else .ok rollout

/-- Embedding of `DoubleCheckEnv.Rollout`: run the generic loop (fixed budget 2), find
the last assistant message, and re-parse/re-score it — but parse errors
and scoring errors are swallowed: the rollout is returned with its score
still 0.0 and a nil error. -/
def doubleCheckRollout (env : MTEnv) (client : MTClient) (prompt : List Message)
    (answer : String)
    (parser : Option ParserIface) (rubric : Option RubricIface) : Except GoErr Rollout :=
  match baseMultiTurnRollout env client prompt answer 2 with
  | .error e => .error e
  | .ok (rollout, _) =>
    match parser with
    | none => .ok rollout
    | some p =>
      if rollout.messages ≠ [] then
        let finalResponse := lastAssistantContent rollout.messages
        if finalResponse ≠ "" then
          match p.parse finalResponse with
          | .error _ => .ok rollout
          | .ok parsed =>
            match rubric with
            | none => .ok rollout
            | some rb =>
              match rb.computeReward parsed answer with
              | .error _ => .ok rollout
              | .ok score => .ok { rollout with score := score }
        else .ok rollout
      else .ok rollout

/-- Embedding of `CodeMathEnv.IsCompleted`: some assistant message parses with a
non-empty answer field (the Go code scans from the end; the boolean is
scan-order independent). -/
def codeMathIsCompleted (messages : List Message) (_ : GoMap) : Bool :=
  messages.any (fun m =>
    m.role == "assistant" &&
      ((parseXMLFields codeMathParser.fields m.content true).lookup "answer").getD "" ≠ "")

/-- Embedding of `CodeMathEnv.EnvResponse`, parameterized by the expression evaluator
(`evaluateExpressions`, whose arithmetic core is the third-party
govaluate library — an external collaborator): parse the last assistant
message, ask for code when the code field is empty, otherwise evaluate,
record the execution in state, and reply with the evaluation output.
(The corrective branch for a parse error is dead code: `ParseXML` cannot
fail for these patterns.) -/
def codeMathEnvResponse (evalExprs : String → String × Bool)
    (messages : List Message) (state : GoMap) : Except GoErr (Message × GoMap) :=
  match messages.getLast? with
  | none => .error "no messages to process"
  | some lastMsg =>
    if lastMsg.role ≠ "assistant" then .error "last message must be from assistant"
    else
      let fields := parseXMLFields codeMathParser.fields lastMsg.content true
      let code := (fields.lookup "code").getD ""
      if code = "" then
        .ok (⟨"user", "No mathematical expressions found. Please provide expressions or calculations in <code> tags."⟩, state)
      else
        let (output, success) := evalExprs code
        let response :=
          if success = false then "Evaluation error:\n" ++ output
          else "Evaluation results:\n" ++ output
        let executions := match state.lookup "code_executions" with
          | some (.codeExecs l) => l
          | _ => []
        let state' : GoMap :=
          ("code_executions", GoDyn.codeExecs (executions ++ [⟨code, output, success⟩])) :: state
        .ok (⟨"user", response⟩, state')

/-- A `CodeMathEnv` as the generic loop sees it. -/
def codeMathEnv (evalExprs : String → String × Bool) : MTEnv :=
  { isCompleted := codeMathIsCompleted, envResponse := codeMathEnvResponse evalExprs }

/-- Embedding of `CodeMathEnv.Rollout`: delegates to `BaseMultiTurnRollout` and
returns its result unchanged — no re-parsing, no re-scoring. -/
def codeMathRollout (evalExprs : String → String × Bool) (client : MTClient)
    (prompt : List Message) (answer : String) (maxTurns : Int) : Except GoErr Rollout :=
  match baseMultiTurnRollout (codeMathEnv evalExprs) client prompt answer maxTurns with
  | .error e => .error e
  | .ok (rollout, _) => .ok rollout

/-- Embedding of `SmolaToolEnv.Rollout`: run the generic loop, then rescore with
`ComputeRewardWithTrace` on an empty trace, overwriting the score only
when that call succeeds (its error is swallowed). -/
def smolaToolRollout (env : MTEnv) (client : MTClient) (prompt : List Message)
    (answer : String) (maxTurns : Int)
    (computeRewardWithTrace : String → String → List ToolExecution → Except GoErr ℚ) :
    Except GoErr Rollout :=
  match baseMultiTurnRollout env client prompt answer maxTurns with
  | .error e => .error e
  | .ok (rollout, _) =>
    match computeRewardWithTrace rollout.response answer [] with
    | .ok score => .ok { rollout with score := score }
    | .error _ => .ok rollout

/-! ## Tool dispatch (pkg/tools/tool.go) and tool environments -/

/-- Embedding of `tools.ParseToolCall`: decode the JSON object into `{name, args}`;
invalid JSON (including type-mismatched fields under Go's typed
decoding) is an error, a missing or empty name is an error, missing or
null args become an empty map. -/
def parseToolCall (jsonStr : String) : Except GoErr (String × List (String × GoVal)) :=
  match jsonParse jsonStr with
  | some (.obj ms) =>
    match ms.lookup "name" with
    | some (.str nm) =>
      if nm = "" then .error "tool call must specify 'name'"
      else
        match ms.lookup "args" with
        | some (.obj args) => .ok (nm, args)
        | some .null => .ok (nm, [])
        | none => .ok (nm, [])
        | some _ => .error "invalid JSON: cannot unmarshal into args"
    | some .null => .error "tool call must specify 'name'"
    | none => .error "tool call must specify 'name'"
    | some _ => .error "invalid JSON: cannot unmarshal into name"
  | some .null => .error "tool call must specify 'name'"
  | _ => .error "invalid JSON"

/-- Embedding of `tools.ExecuteTool`: dispatch by name (unknown names produce the
instructional error text; the available-tools list follows registration
order, where Go's map iteration order is unspecified), stringify, and
truncate to `maxChars` with a trailing ellipsis. -/
def executeTool (tools : List GoTool) (name : String) (args : List (String × GoVal))
    (maxChars : Nat) : String :=
  match tools.find? (fun t => t.name = name) with
  | none =>
    "Error: Unknown tool '" ++ name ++ "'. Available tools: " ++
      String.intercalate ", " (tools.map (fun t => t.name))
  | some t =>
    match t.execute args with
    | .error e => "Error: " ++ e
    | .ok resultStr =>
      if 0 < maxChars ∧ maxChars < resultStr.length then ⟨resultStr.data.take maxChars⟩ ++ "..."
      else resultStr

/-- Embedding of `ToolEnv.callTool` / `SmolaToolEnv.callTool`. -/
def callTool (tools : List GoTool) (toolJSON : String) (maxChars : Nat) : String :=
  match parseToolCall toolJSON with
  | .error e =>
    "Error: " ++ e ++
      ". Please format your tool call as '\x7b\"name\": \"tool_name\", \"args\": \x7b\"arg1\": \"value1\"\x7d\x7d'"
  | .ok (nm, args) => executeTool tools nm args maxChars

/-- The Smola parser's field declarations (`NewSmolaParser(["think","tool","answer"])`). -/
def smolaParserFields : List XMLField :=
  [⟨"think", ["think"]⟩, ⟨"tool", ["tool"]⟩, ⟨"answer", ["answer"]⟩]

/-- Go function results extended with panics. -/
inductive GoRet (α : Type) where
  | ok : α → GoRet α
  | err : GoErr → GoRet α
  | panik : String → GoRet α
deriving Repr

/-- Embedding of `SmolaToolEnv.formatError`. -/
def smolaFormatError (msg : String) : String :=
  "<result>\n" ++ msg ++ "\n</result>"

/-- Embedding of `SmolaToolEnv.EnvResponse` (src/unnamed/part_001 lines 784-854):
parse the last assistant message with the Smola parser (tag extraction
identical to `ParseXML`; the decoded-tool-JSON extra plays no role
here), emit a corrective message when the tool field is absent,
otherwise execute the call and record the execution trace in state.
The trace recording performs the unchecked Go type assertions
`state["tool_executions"].([]rubrics.ToolExecution)` and
`toolCall["args"].(map[string]interface\x7b\x7d)`; a failing assertion is a
runtime panic, modelled by `GoRet.panik`. -/
def smolaEnvResponse (tools : List GoTool) (messages : List Message) (state : GoMap) :
    GoRet (Message × GoMap) :=
  match messages.getLast? with
  | none => .err "no messages to process"
  | some lastMsg =>
    if lastMsg.role ≠ "assistant" then .err "last message must be from assistant"
    else
      let fields := parseXMLFields smolaParserFields lastMsg.content true
      let toolJSON := (fields.lookup "tool").getD ""
      if toolJSON = "" then
        .ok (⟨"user", smolaFormatError "No tool call found. Use <tool>\x7bjson\x7d</tool> to call a tool."⟩, state)
      else
        let result := callTool tools toolJSON 1024
        match (match state.lookup "tool_executions" with
               | some (.toolExecs l) => some l
               | none => some []
               | some _ => none) with
        | none => .panik "interface conversion: state value is not []ToolExecution"
        | some executions =>
          let decoded := jsonUnmarshalObj toolJSON
          let toolName := match decoded with
            | some m => match m.lookup "name" with
              | some (.str s) => s
              | _ => "unknown"
            | none => "unknown"
          let success := match decoded with
            | some _ => !(strStartsWith result "Error:")
            | none => false
          match (decoded.getD []).lookup "args" with
          | some (.obj args) =>
            let exec : ToolExecution := ⟨toolName, args, result, success⟩
            let state' : GoMap := ("tool_executions", GoDyn.toolExecs (executions ++ [exec])) :: state
            .ok (⟨"user", "<result>\n" ++ result ++ "\n</result>"⟩, state')
          | _ => .panik "interface conversion: interface \x7b\x7d is not map[string]interface \x7b\x7d"

/-! ## Environment group (pkg/envs/env_group.go) -/

/-- A sub-environment, seen through its `Rollout` method as a function of
the (de-prefixed) answer; the other rollout arguments are fixed by the
delegating call and elided. -/
structure SubEnv where
  rollout : String → Except GoErr Rollout

/-- Embedding of `EnvGroup`: the name-keyed environment map and the ordered name list
(populated in `NewEnvGroup` by ranging over a Go map, whose iteration
order is unspecified; both are taken as given here). -/
structure EnvGroup where
  envs : List (String × SubEnv)
  envNames : List String

/-- Embedding of `EnvGroup.parseTaskAnswer`: split on the first colon; with no colon,
default to the first registered environment name with the answer
unchanged. -/
def parseTaskAnswer (g : EnvGroup) (answer : String) : String × String :=
  match splitFirstChar ':' answer.data with
  | some (pre, post) => (⟨pre⟩, ⟨post⟩)
  | none =>
    match g.envNames with
    | n :: _ => (n, answer)
    | [] => ("", answer)

/-- Embedding of `EnvGroup.Rollout`: route by task, delegate with the de-prefixed
answer; an unregistered task is a hard error. -/
def envGroupRollout (g : EnvGroup) (answer : String) : Except GoErr Rollout :=
  let (task, actualAnswer) := parseTaskAnswer g answer
  match g.envs.lookup task with
  | none => .error ("unknown task: " ++ task)
  | some env => env.rollout actualAnswer

/-! ## Batch processor (pkg/utils/concurrent.go lines 39-85)

`Process` launches one goroutine per item; each writes
`ProcessResult{index, result, error}` to its own slot of the shared
result slice.  The concurrent execution is modelled by an arbitrary
completion schedule: a list of item indices in the order the workers
finish, each performing its slot write.  `maxConcurrent` (semaphore
size) and the per-item timeout constrain only the schedule, never which
value a worker writes, so they do not appear in the slot contents. -/

/-- Embedding of `ProcessResult`; the Go zero value is `{Index: 0, Result: zero, Error: nil}`. -/
structure ProcessResult (R : Type) where
  index : Nat
  result : Option R
  error : Option GoErr
deriving Repr, DecidableEq

/-- The value worker `i` writes to slot `i`. -/
def processOutcome {T R : Type} (f : T → Except GoErr R) (items : List T) (i : Nat) :
    ProcessResult R :=
  match items.get? i with
  | none => ⟨0, none, none⟩
  | some item =>
    match f item with
    | .ok r => ⟨i, some r, none⟩
    | .error e => ⟨i, none, some e⟩

/-- Embedding of `BatchProcessor.Process` under a completion schedule `order`: start
from the zero-initialized result slice and perform each finishing
worker's write. -/
def batchProcess {T R : Type} (f : T → Except GoErr R) (items : List T)
    (order : List Nat) : Array (ProcessResult R) :=
  order.foldl (fun arr k => arr.setD k (processOutcome f items k))
    (Array.mkArray items.length ⟨0, none, none⟩)

/-! ## Math and code-math rubrics (src/unnamed/part_004, part_002) -/

/-- Embedding of `utils.ExtractBoxedAnswer`'s balanced-brace scan after `\boxed\x7b`:
content up to the matching close brace, or `none` when unbalanced. -/
def boxedScan : Nat → List Char → Option (List Char)
  | _, [] => none
  | count, c :: rest =>
    if c = '\x7b' then (boxedScan (count + 1) rest).map (fun l => c :: l)
    else if c = '\x7d' then
      if count = 1 then some [] else (boxedScan (count - 1) rest).map (fun l => c :: l)
    else (boxedScan count rest).map (fun l => c :: l)

/-- Embedding of `utils.ExtractBoxedAnswer`: the `\boxed\x7b…\x7d` content when present and
balanced, else the text unmodified. -/
def extractBoxedAnswer (text : String) : String :=
  match takeUntilSub ['\\', 'b', 'o', 'x', 'e', 'd', '\x7b'] text.data with
  | none => text
  | some pre =>
    match boxedScan 1 (text.data.drop (pre.length + 7)) with
    | some content => ⟨content⟩
    | none => text

/-- Embedding of `CodeMathRubric`'s `correct_answer` metric: re-extract the answer
field via the reasoning/code/answer parser when non-empty, then
numeric-aware fuzzy comparison. -/
def codeMathCorrectAnswer : RewardFunc := fun parsed groundTruth =>
  let fields := parseXMLFields codeMathParser.fields parsed true
  let parsed' := match fields.lookup "answer" with
    | some a => if a ≠ "" then a else parsed
    | none => parsed
  .ok (if compareMathAnswers parsed' groundTruth then 1 else 0)

/-- Embedding of `CodeMathRubric.evaluateCodeExecution`: keyword-sniffing heuristic —
1.0 on success indicators without error indicators, 0.0 on error
indicators or empty code field, 0.5 otherwise. -/
def evaluateCodeExecution (response : String) : ℚ :=
  let fields := parseXMLFields codeMathParser.fields response true
  let code := (fields.lookup "code").getD ""
  if code = "" then 0
  else
    let lower := toLowerString response
    let errorIndicators := ["error:", "traceback", "exception", "syntaxerror", "nameerror",
      "typeerror", "valueerror", "zerodivisionerror", "code execution error"]
    let hasError := errorIndicators.any (fun ind => strContains lower ind)
    let successIndicators := ["code output:", "result:", "output:"]
    let hasSuccess := successIndicators.any (fun ind => strContains lower ind && !hasError)
    if hasSuccess ∧ ¬hasError then 1
    else if hasError then 0
    else 0.5

/-- Embedding of `NewCodeMathRubric`: resets the inherited function/weight lists
(`rubric.rewardFuncs = nil`) and registers "correct_answer" (0.7) and
"code_execution" (0.3). -/
def newCodeMathRubric : BaseRubric :=
  { rewardFuncs := [codeMathCorrectAnswer, fun response _ => .ok (evaluateCodeExecution response)],
    rewardWeights := [0.7, 0.3] }

/-- Embedding of `MathRubric.ComputeReward` (inherited by `CodeMathRubric`):
pre-process the ground truth with `ExtractBoxedAnswer`, then aggregate. -/
def mathComputeReward (r : BaseRubric) (parsed groundTruth : String) : Except GoErr ℚ :=
  r.computeReward parsed (extractBoxedAnswer groundTruth)

/-! ## Specification-side helper functions used in theorem statements -/

/-- The per-function scores when every reward function succeeds
(`none` as soon as one errors). -/
def evalRewardList : List RewardFunc → String → String → Option (List ℚ)
  | [], _, _ => some []
  | fn :: rest, parsed, groundTruth =>
    match fn parsed groundTruth with
    | .error _ => none
    | .ok r =>
      match evalRewardList rest parsed groundTruth with
      | none => none
      | some rs => some (r :: rs)

/-- Embedding of `Σ reward_i * weight_i` over paired lists. -/
def dotProd : List ℚ → List ℚ → ℚ
  | [], _ => 0
  | _, [] => 0
  | r :: rs, w :: ws => r * w + dotProd rs ws

/-- The (score, weight) contributions of the non-erroring members of a
rubric group. -/
def survivingContribs (members : List GroupMember) (parsed groundTruth : String) :
    List (ℚ × ℚ) :=
  members.filterMap (fun m =>
    match m.computeReward parsed groundTruth with
    | .ok s => some (s, memberWeight m)
    | .error _ => none)

/-- The number of assistant-role messages in a transcript. -/
def countAssistant (l : List Message) : Nat :=
  (l.filter (fun m => m.role == "assistant")).length

/-! ## Concrete instances used by witnesses and counterexamples -/

/-- A multi-turn environment whose completion predicate never returns
true (for exercising the turn budget). -/
def neverDoneEnv : MTEnv :=
  { isCompleted := fun _ _ => false,
    envResponse := fun _ state => .ok (⟨"user", "go on"⟩, state) }

/-- A client that always answers "hello". -/
def helloClient : MTClient := ⟨fun _ => .ok "hello"⟩

/-- A client that always answers with a well-formed code-math response. -/
def cexClient : MTClient :=
  ⟨fun _ => .ok "<reasoning>2 and 2</reasoning>\n<code>2 + 2</code>\n<answer>4</answer>"⟩

/-- The prompt used by the code-math counterexample run. -/
def cexPrompt : List Message := [⟨"user", "What is 2 + 2?"⟩]

/-- An arbitrary expression evaluator (never invoked in the
counterexample run: the first assistant message already completes). -/
def cexEval : String → String × Bool := fun _ => ("", true)

/-- The rollout the code-math counterexample run produces. -/
def c2cexRollout : Rollout :=
  { messages := [⟨"user", "What is 2 + 2?"⟩,
                 ⟨"assistant", "<reasoning>2 and 2</reasoning>\n<code>2 + 2</code>\n<answer>4</answer>"⟩],
    response := "<reasoning>2 and 2</reasoning>\n<code>2 + 2</code>\n<answer>4</answer>",
    score := 0 }

/-- A concrete math sub-environment for the routing witness. -/
def mathSubEnv : SubEnv := ⟨fun ans => .ok ⟨[], "math got " ++ ans, 1⟩⟩

/-- A concrete trivia sub-environment for the routing witness. -/
def triviaSubEnv : SubEnv := ⟨fun ans => .ok ⟨[], "trivia got " ++ ans, 2⟩⟩

/-- A concrete two-environment group with registration order
`[math, trivia]`. -/
def mathTriviaGroup : EnvGroup :=
  ⟨[("math", mathSubEnv), ("trivia", triviaSubEnv)], ["math", "trivia"]⟩

/-- The rollout of the default-budget witness run (ten assistant turns
interleaved with nine nudges). -/
def c1wRollout : Rollout :=
  match baseMultiTurnRollout neverDoneEnv helloClient [⟨"user", "q"⟩] "a" (-1) with
  | .ok (r, _) => r
  | .error _ => ⟨[], "", 0⟩

/-- A parser that always fails, exercising error propagation. -/
def failingParserIface : ParserIface := ⟨fun _ => .error "bad"⟩

/-- The dialog witness run: keyword "DONE", client answering "DONE". -/
def c2wClient : MTClient := ⟨fun _ => .ok "DONE"⟩

/-- The rollout the dialog witness run's generic loop produces. -/
def c2wRollout : Rollout :=
  { messages := [⟨"user", "q"⟩, ⟨"assistant", "DONE"⟩], response := "DONE", score := 0 }

end Verifiers

namespace Verifiers

/-! ## Shared lemmas -/

theorem dropWhile_trim_aux (p : Char → Bool) (l : List Char) :
    ((l.dropWhile p).rdropWhile p).dropWhile p = (l.dropWhile p).rdropWhile p := by
  apply List.dropWhile_eq_self_iff.mpr
  intro hl
  have hpre := List.rdropWhile_prefix p (l.dropWhile p)
  have hlen : 0 < (l.dropWhile p).length :=
    lt_of_lt_of_le hl (List.IsPrefix.length_le hpre)
  have hg := List.IsPrefix.getElem hpre (show 0 < ((l.dropWhile p).rdropWhile p).length from hl)
  rw [List.get_eq_getElem, hg]
  exact List.dropWhile_get_zero_not p l hlen

theorem trimChars_idem (l : List Char) : trimChars (trimChars l) = trimChars l := by
  have h : trimChars l = (l.dropWhile isSpaceChar).rdropWhile isSpaceChar := rfl
  rw [h]
  show ((((l.dropWhile isSpaceChar).rdropWhile isSpaceChar).dropWhile
      isSpaceChar).reverse.dropWhile isSpaceChar).reverse = _
  rw [dropWhile_trim_aux]
  show ((l.dropWhile isSpaceChar).rdropWhile isSpaceChar).rdropWhile isSpaceChar = _
  rw [List.rdropWhile_idempotent]

theorem trimString_idem (s : String) : trimString (trimString s) = trimString s := by
  unfold trimString
  exact congrArg String.mk (trimChars_idem s.data)

theorem extractTagGroup_trim {tag text : String} {c : String}
    (h : extractTagGroup tag text = some c) : trimString c = c := by
  unfold extractTagGroup at h
  rcases Option.map_eq_some'.mp h with ⟨inner, _, rfl⟩
  exact congrArg String.mk (trimChars_idem inner)

/-! ## C8 — XMLParser.Parse -/

/-- C8: for the think/answer parser with answer field `answer`, `Parse`
returns the first-match, whitespace-trimmed content between the answer
tags, and the empty string when the answer field was never matched; in
particular `<think>x</think>\n<answer>4</answer>` parses to `4`. -/
theorem claim_c8_xml_parse :
    (∀ text : String,
      xmlParse thinkAnswerParser text = (extractTagGroup "answer" text).getD "") ∧
    xmlParse thinkAnswerParser "<think>x</think>\n<answer>4</answer>" = "4" := by
  constructor
  · intro text
    unfold xmlParse parseXMLFields thinkAnswerParser
    simp only [List.foldl]
    rcases hth : extractTagGroup "think" text with _ | cth <;>
      rcases han : extractTagGroup "answer" text with _ | can <;>
        simp [hth, han, List.lookup]
    · exact extractTagGroup_trim han
    · exact extractTagGroup_trim han
  · rfl

/-! ## C9 — CompareMathAnswers -/

/-- C9: `CompareMathAnswers` is symmetric, `("1,000.0", "1000")` compares
true, `("abc", "abd")` compares false. -/
theorem claim_c9_compare_symmetric :
    (∀ a b : String, compareMathAnswers a b = compareMathAnswers b a) ∧
    compareMathAnswers "1,000.0" "1000" = true ∧
    compareMathAnswers "abc" "abd" = false := by
  refine ⟨?_, by decide, by decide⟩
  intro a b
  unfold compareMathAnswers
  by_cases hab : a = b
  · subst hab; simp
  · have hba : ¬ b = a := fun h => hab h.symm
    simp only [if_neg hab, if_neg hba]
    by_cases hn : normalizeNumber a = normalizeNumber b
    · simp [hn]
    · have hn' : ¬ normalizeNumber b = normalizeNumber a := fun h => hn h.symm
      simp only [if_neg hn, if_neg hn']
      rcases hpa : parseFloatDec (normalizeNumber a) with _ | x <;>
        rcases hpb : parseFloatDec (normalizeNumber b) with _ | y <;>
          simp [hpa, hpb]
      exact Bool.and_comm _ _

/-! ## C10 — SmolaToolEnv.EnvResponse panics -/

/-- C10: on an assistant message whose tool field content is not valid
JSON, `SmolaToolEnv.EnvResponse` does not return a message or an error —
the unchecked type assertion on `toolCall["args"]` panics. -/
theorem claim_c10_env_response_panics :
    smolaEnvResponse [] [⟨"assistant", "<think>use tool</think>\n<tool>\nnotjson\n</tool>"⟩] [] =
      .panik "interface conversion: interface \x7b\x7d is not map[string]interface \x7b\x7d" := by
  rfl

end Verifiers

namespace Verifiers

/-! ## C3 — BaseRubric.ComputeReward weighted average -/

theorem runRewardFuncs_eval (p g : String) :
    ∀ (fns : List RewardFunc) (ws : List ℚ) (rs : List ℚ),
      evalRewardList fns p g = some rs → fns.length = ws.length →
      runRewardFuncs p g fns ws = .ok (dotProd rs ws, ws.sum) := by
  intro fns
  induction fns with
  | nil =>
    intro ws rs h hlen
    cases ws with
    | nil =>
      simp only [evalRewardList, Option.some.injEq] at h
      subst h
      simp [runRewardFuncs, dotProd]
    | cons w ws' => simp at hlen
  | cons fn rest ih =>
    intro ws rs h hlen
    cases ws with
    | nil => simp at hlen
    | cons w ws' =>
      simp only [evalRewardList] at h
      rcases hfn : fn p g with e | r
      · rw [hfn] at h; simp at h
      · rw [hfn] at h
        rcases hrest : evalRewardList rest p g with _ | rs'
        · rw [hrest] at h; simp at h
        · rw [hrest] at h
          simp only [Option.some.injEq] at h
          subst h
          simp only [runRewardFuncs, hfn, List.tail_cons]
          rw [ih ws' rs' hrest (by simpa using hlen)]
          simp [dotProd, List.sum_cons]

theorem dotProd_nonneg :
    ∀ (rs ws : List ℚ), (∀ r ∈ rs, 0 ≤ r) → (∀ w ∈ ws, 0 ≤ w) → 0 ≤ dotProd rs ws := by
  intro rs
  induction rs with
  | nil => intro ws _ _; simp [dotProd]
  | cons r rs' ih =>
    intro ws hr hw
    cases ws with
    | nil => simp [dotProd]
    | cons w ws' =>
      simp only [dotProd]
      have h1 : 0 ≤ r * w :=
        mul_nonneg (hr r (by simp)) (hw w (by simp))
      have h2 : 0 ≤ dotProd rs' ws' :=
        ih ws' (fun x hx => hr x (by simp [hx])) (fun x hx => hw x (by simp [hx]))
      linarith

theorem dotProd_le_sum :
    ∀ (rs ws : List ℚ), (∀ r ∈ rs, r ≤ 1) → (∀ w ∈ ws, 0 ≤ w) → dotProd rs ws ≤ ws.sum := by
  intro rs
  induction rs with
  | nil =>
    intro ws _ hw
    simpa [dotProd] using List.sum_nonneg (fun x hx => hw x hx)
  | cons r rs' ih =>
    intro ws hr hw
    cases ws with
    | nil => simp [dotProd]
    | cons w ws' =>
      simp only [dotProd, List.sum_cons]
      have h1 : r * w ≤ w := by
        have := mul_le_mul_of_nonneg_right (hr r (by simp)) (hw w (by simp))
        simpa using this
      have h2 : dotProd rs' ws' ≤ ws'.sum :=
        ih ws' (fun x hx => hr x (by simp [hx])) (fun x hx => hw x (by simp [hx]))
      linarith

/-- C3 counterexample: with weights `[2, -1]` and rewards `[0, 1]` — every
reward in `[0,1]`, total weight `1 > 0` — `ComputeReward` returns `-1`,
outside `[0,1]`. -/
theorem claim_c3_counterexample :
    BaseRubric.computeReward ⟨[fun _ _ => .ok 0, fun _ _ => .ok 1], [2, -1]⟩ "" "" = .ok (-1) ∧
    evalRewardList [fun _ _ => .ok 0, fun _ _ => .ok (1 : ℚ)] "" "" = some [0, 1] ∧
    (∀ x ∈ ([0, 1] : List ℚ), 0 ≤ x ∧ x ≤ 1) ∧
    (0 : ℚ) < ([2, -1] : List ℚ).sum ∧
    ¬(0 : ℚ) ≤ -1 := by
  refine ⟨?_, by simp [evalRewardList], by norm_num, by norm_num, by norm_num⟩
  simp only [BaseRubric.computeReward, runRewardFuncs, List.isEmpty, List.tail_cons]
  norm_num

/-- C3 amended: when every function succeeds, `ComputeReward` is the
weighted average (0 at zero total weight), and its result lies in [0,1]
whenever every reward is in [0,1], every weight is nonnegative, and the
total weight is positive. -/
theorem claim_c3_amended :
    ∀ (r : BaseRubric) (p g : String) (rs : List ℚ),
      r.rewardFuncs.length = r.rewardWeights.length →
      evalRewardList r.rewardFuncs p g = some rs →
      (r.computeReward p g =
        .ok (if 0 < r.rewardWeights.sum
             then dotProd rs r.rewardWeights / r.rewardWeights.sum else 0)) ∧
      (r.rewardWeights.sum = 0 → r.computeReward p g = .ok 0) ∧
      ((∀ x ∈ rs, 0 ≤ x ∧ x ≤ 1) → (∀ w ∈ r.rewardWeights, 0 ≤ w) →
        0 < r.rewardWeights.sum →
        r.computeReward p g = .ok (dotProd rs r.rewardWeights / r.rewardWeights.sum) ∧
        0 ≤ dotProd rs r.rewardWeights / r.rewardWeights.sum ∧
        dotProd rs r.rewardWeights / r.rewardWeights.sum ≤ 1) := by
  intro r p g rs hlen heval
  have hmain : r.computeReward p g =
      .ok (if 0 < r.rewardWeights.sum
           then dotProd rs r.rewardWeights / r.rewardWeights.sum else 0) := by
    unfold BaseRubric.computeReward
    rcases hf : r.rewardFuncs with _ | ⟨fn, rest⟩
    · rw [hf] at hlen heval
      cases hw : r.rewardWeights with
      | nil =>
        simp only [evalRewardList, Option.some.injEq] at heval
        subst heval
        simp [hw, dotProd]
      | cons w ws' => rw [hw] at hlen; simp at hlen
    · rw [hf] at heval hlen
      rw [runRewardFuncs_eval p g _ _ _ heval hlen]
      simp
  refine ⟨hmain, ?_, ?_⟩
  · intro hz
    rw [hmain, hz]
    simp
  · intro hx hw hpos
    refine ⟨by rw [hmain, if_pos hpos], ?_, ?_⟩
    · exact div_nonneg (dotProd_nonneg rs _ (fun x h => (hx x h).1) hw) (le_of_lt hpos)
    · rw [div_le_one hpos]
      exact dotProd_le_sum rs _ (fun x h => (hx x h).2) hw

/-- Witness for the amended C3 at a one-function rubric. -/
theorem claim_c3_amended_witness :
    (⟨[fun _ _ => .ok 0.5], [1]⟩ : BaseRubric).computeReward "" "" =
      .ok (if 0 < ([1] : List ℚ).sum then dotProd [0.5] [1] / ([1] : List ℚ).sum else 0) :=
  (claim_c3_amended ⟨[fun _ _ => .ok 0.5], [1]⟩ "" "" [0.5] rfl rfl).1

end Verifiers

namespace Verifiers

/-! ## C4 — error propagation vs. group resilience -/

theorem runRewardFuncs_error (p g : String) (fn : RewardFunc) (post : List RewardFunc)
    (e : GoErr) (hfn : fn p g = .error e) :
    ∀ (pre : List RewardFunc) (ws : List ℚ) (rs : List ℚ),
      evalRewardList pre p g = some rs →
      runRewardFuncs p g (pre ++ fn :: post) ws = .error e := by
  intro pre
  induction pre with
  | nil =>
    intro ws rs _
    simp [runRewardFuncs, hfn]
  | cons f rest ih =>
    intro ws rs h
    simp only [evalRewardList] at h
    rcases hf : f p g with e' | r
    · rw [hf] at h; simp at h
    · rw [hf] at h
      rcases hrest : evalRewardList rest p g with _ | rs'
      · rw [hrest] at h; simp at h
      · simp only [List.cons_append, runRewardFuncs, hf, List.append_eq]
        rw [ih ws.tail rs' hrest]

theorem runGroupMembers_eq (p g : String) :
    ∀ members : List GroupMember,
      runGroupMembers p g members =
        (((survivingContribs members p g).map (fun c => c.1 * c.2)).sum,
         ((survivingContribs members p g).map Prod.snd).sum) := by
  intro members
  induction members with
  | nil => simp [runGroupMembers, survivingContribs]
  | cons m rest ih =>
    simp only [runGroupMembers, ih, survivingContribs, List.filterMap_cons]
    rcases hm : m.computeReward p g with e | s <;> simp [hm, survivingContribs]

/-- C4 counterexample: a member exposing an empty weight list is given
weight `1.0`, not the sum (`0`) of its own function weights — the group
returns its score `1` where the claim's formula yields `0`. -/
theorem claim_c4_counterexample :
    rubricGroupComputeReward [⟨fun _ _ => .ok 1, []⟩] "" "" = .ok 1 ∧
    (⟨fun _ _ => .ok 1, []⟩ : GroupMember).rewardWeights.sum = 0 := by
  constructor
  · simp only [rubricGroupComputeReward, runGroupMembers, memberWeight]
    norm_num
  · rfl

/-- C4 amended: the base aggregator propagates the first error; the
group skips erroring members and returns the weight-normalized sum over
the survivors, each weighted by the sum of its own function weights —
except that a member with an empty weight list is given weight 1.0 —
and returns 0.0 without error when every member fails. -/
theorem claim_c4_amended :
    (∀ (pre post : List RewardFunc) (fn : RewardFunc) (ws : List ℚ) (p g : String)
       (e : GoErr) (rs : List ℚ),
      evalRewardList pre p g = some rs → fn p g = .error e →
      BaseRubric.computeReward ⟨pre ++ fn :: post, ws⟩ p g = .error e) ∧
    (∀ (members : List GroupMember) (p g : String),
      rubricGroupComputeReward members p g =
        .ok (if 0 < ((survivingContribs members p g).map Prod.snd).sum
             then ((survivingContribs members p g).map (fun c => c.1 * c.2)).sum /
                  ((survivingContribs members p g).map Prod.snd).sum
             else 0)) ∧
    (∀ (members : List GroupMember) (p g : String),
      (∀ m ∈ members, ∃ e, m.computeReward p g = .error e) →
      rubricGroupComputeReward members p g = .ok 0) ∧
    (∀ m : GroupMember, m.rewardWeights ≠ [] → memberWeight m = m.rewardWeights.sum) := by
  refine ⟨?_, ?_, ?_, ?_⟩
  · intro pre post fn ws p g e rs heval hfn
    unfold BaseRubric.computeReward
    rw [runRewardFuncs_error p g fn post e hfn pre ws rs heval]
    simp [List.isEmpty_eq_true]
  · intro members p g
    unfold rubricGroupComputeReward
    rw [runGroupMembers_eq]
  · intro members p g hall
    unfold rubricGroupComputeReward
    rw [runGroupMembers_eq]
    have hnil : survivingContribs members p g = [] := by
      apply List.filterMap_eq_nil_iff.mpr
      intro m hm
      obtain ⟨e, he⟩ := hall m hm
      simp [he]
    simp [hnil]
  · intro m hm
    unfold memberWeight
    simp [hm]

/-- Witness for the amended C4: a one-function erroring base rubric, and
a group whose single member fails. -/
theorem claim_c4_amended_witness :
    BaseRubric.computeReward ⟨[] ++ (fun _ _ => .error "boom") :: [], [1]⟩ "" "" =
      .error "boom" ∧
    rubricGroupComputeReward [⟨fun _ _ => .error "x", [1]⟩] "" "" = .ok 0 := by
  constructor
  · exact claim_c4_amended.1 [] [] (fun _ _ => .error "boom") [1] "" "" "boom" [] rfl rfl
  · refine claim_c4_amended.2.2.1 [⟨fun _ _ => .error "x", [1]⟩] "" "" ?_
    intro m hm
    simp only [List.mem_singleton] at hm
    subst hm
    exact ⟨"x", rfl⟩

/-! ## C5 — NewToolRubric registration -/

/-- C5 counterexample: `NewToolRubric` has four registered reward
functions (the inherited exact-match at weight 1.0 plus the three named
metrics), not three. -/
theorem claim_c5_counterexample :
    (newToolRubric [] toolEnvParser).base.rewardFuncs.length = 4 ∧
    ¬((newToolRubric [] toolEnvParser).base.rewardFuncs.length = 3) ∧
    (newToolRubric [] toolEnvParser).base.rewardWeights = [1, 0.6, 0.2, 0.2] ∧
    ¬((newToolRubric [] toolEnvParser).base.rewardWeights.length = 3) := by
  refine ⟨rfl, by decide, rfl, by decide⟩

/-- C5 amended: `NewToolRubric` registers "correct_answer" (0.6),
"format" (0.2) and "tool_usage" (0.2) on top of the inherited exact-match
function (1.0), for four functions in all, and `ComputeReward` is the
weighted average of those four metrics. -/
theorem claim_c5_amended :
    ∀ (toolList : List GoTool) (parser : XMLParser) (p g : String),
      (newToolRubric toolList parser).base.rewardFuncs.length = 4 ∧
      (newToolRubric toolList parser).base.rewardWeights = [1, 0.6, 0.2, 0.2] ∧
      (newToolRubric toolList parser).base.computeReward p g =
        .ok ((exactMatchVal p g * 1 + toolCorrectAnswerVal parser p g * 0.6 +
              evaluateFormat parser p * 0.2 + evaluateToolUsage toolList p * 0.2) / 2) := by
  intro toolList parser p g
  refine ⟨rfl, rfl, ?_⟩
  show BaseRubric.computeReward _ p g = _
  simp only [newToolRubric, newMultiMetricRubric, newBaseRubric, MultiMetricRubric.addMetric,
    BaseRubric.computeReward, runRewardFuncs, exactMatchReward, toolCorrectAnswerFunc,
    List.cons_append, List.nil_append, List.tail_cons, List.isEmpty]
  norm_num
  ring_nf

end Verifiers

namespace Verifiers

/-! ## C6 — EnvGroup routing -/

theorem splitFirstChar_not_mem (sep : Char) :
    ∀ l : List Char, sep ∉ l → splitFirstChar sep l = none := by
  intro l
  induction l with
  | nil => intro _; rfl
  | cons c rest ih =>
    intro h
    have hc : ¬ c = sep := fun hc => h (by simp [hc])
    have hrest : sep ∉ rest := fun hr => h (by simp [hr])
    simp [splitFirstChar, hc, ih hrest]

theorem splitFirstChar_append (sep : Char) :
    ∀ (l1 l2 : List Char), sep ∉ l1 →
      splitFirstChar sep (l1 ++ sep :: l2) = some (l1, l2) := by
  intro l1
  induction l1 with
  | nil => intro l2 _; simp [splitFirstChar]
  | cons c rest ih =>
    intro l2 h
    have hc : ¬ c = sep := fun hc => h (by simp [hc])
    have hrest : sep ∉ rest := fun hr => h (by simp [hr])
    simp [splitFirstChar, hc, ih l2 hrest]

theorem parseTaskAnswer_colon (g : EnvGroup) (task rest : String) (h : ':' ∉ task.data) :
    parseTaskAnswer g (task ++ ":" ++ rest) = (task, rest) := by
  unfold parseTaskAnswer
  have hdata : (task ++ ":" ++ rest).data = task.data ++ ':' :: rest.data := by
    simp [String.data_append]
  rw [hdata, splitFirstChar_append ':' task.data rest.data h]

/-- C6: the group splits the ground truth on the first colon, delegates
to the sub-environment registered under the task with the de-prefixed
answer, errors on an unregistered task, and routes a colon-free ground
truth unchanged to the first registered environment name. -/
theorem claim_c6_env_group_routing :
    (∀ (g : EnvGroup) (task rest : String) (env : SubEnv),
      ':' ∉ task.data → g.envs.lookup task = some env →
      envGroupRollout g (task ++ ":" ++ rest) = env.rollout rest) ∧
    (∀ (g : EnvGroup) (task rest : String),
      ':' ∉ task.data → g.envs.lookup task = none →
      envGroupRollout g (task ++ ":" ++ rest) = .error ("unknown task: " ++ task)) ∧
    (∀ (g : EnvGroup) (answer n : String) (names : List String),
      ':' ∉ answer.data → g.envNames = n :: names →
      parseTaskAnswer g answer = (n, answer)) ∧
    (∀ E1 E2 : SubEnv,
      envGroupRollout ⟨[("math", E1), ("trivia", E2)], ["math", "trivia"]⟩ "math:100" =
        E1.rollout "100" ∧
      envGroupRollout ⟨[("math", E1), ("trivia", E2)], ["math", "trivia"]⟩ "42" =
        E1.rollout "42") := by
  have hnocolon : ∀ (g : EnvGroup) (answer n : String) (names : List String),
      ':' ∉ answer.data → g.envNames = n :: names →
      parseTaskAnswer g answer = (n, answer) := by
    intro g answer n names h hnames
    unfold parseTaskAnswer
    rw [splitFirstChar_not_mem ':' answer.data h, hnames]
  refine ⟨?_, ?_, hnocolon, ?_⟩
  · intro g task rest env h hlook
    unfold envGroupRollout
    rw [parseTaskAnswer_colon g task rest h]
    simp [hlook]
  · intro g task rest h hlook
    unfold envGroupRollout
    rw [parseTaskAnswer_colon g task rest h]
    simp [hlook]
  · intro E1 E2
    constructor
    · show envGroupRollout _ ("math" ++ ":" ++ "100") = _
      unfold envGroupRollout
      rw [parseTaskAnswer_colon _ "math" "100" (by decide)]
      rfl
    · unfold envGroupRollout
      rw [hnocolon _ "42" "math" ["trivia"] (by decide) rfl]
      rfl

/-- Witness for C6 at a concrete two-environment group. -/
theorem claim_c6_witness :
    envGroupRollout mathTriviaGroup "math:100" = mathSubEnv.rollout "100" ∧
    envGroupRollout mathTriviaGroup "trivia:x" = triviaSubEnv.rollout "x" ∧
    envGroupRollout mathTriviaGroup "bogus:1" = .error ("unknown task: " ++ "bogus") ∧
    parseTaskAnswer mathTriviaGroup "42" = ("math", "42") := by
  refine ⟨?_, ?_, ?_, ?_⟩
  · have h := (claim_c6_env_group_routing.1) mathTriviaGroup "math" "100" mathSubEnv
      (by decide) rfl
    simpa using h
  · have h := (claim_c6_env_group_routing.1) mathTriviaGroup "trivia" "x" triviaSubEnv
      (by decide) rfl
    simpa using h
  · have h := (claim_c6_env_group_routing.2.1) mathTriviaGroup "bogus" "1"
      (by decide) rfl
    simpa using h
  · exact (claim_c6_env_group_routing.2.2.1) mathTriviaGroup "42" "math" ["trivia"]
      (by decide) rfl

/-! ## C7 — BatchProcessor ordering and partial failure -/

theorem batchFold_size {R : Type} (v : Nat → ProcessResult R) :
    ∀ (order : List Nat) (arr : Array (ProcessResult R)),
      (order.foldl (fun a k => a.setD k (v k)) arr).size = arr.size := by
  intro order
  induction order with
  | nil => intro arr; rfl
  | cons k rest ih =>
    intro arr
    rw [List.foldl_cons, ih, Array.size_setD]

theorem batchFold_get {R : Type} (v : Nat → ProcessResult R) (d : ProcessResult R) :
    ∀ (order : List Nat) (arr : Array (ProcessResult R)) (i : Nat), i < arr.size →
      ((i ∈ order → (order.foldl (fun a k => a.setD k (v k)) arr).getD i d = v i) ∧
       (i ∉ order → (order.foldl (fun a k => a.setD k (v k)) arr).getD i d = arr.getD i d)) := by
  intro order
  induction order with
  | nil =>
    intro arr i hi
    exact ⟨fun h => absurd h (List.not_mem_nil i), fun _ => rfl⟩
  | cons k rest ih =>
    intro arr i hi
    have hsize : i < (arr.setD k (v k)).size := by rwa [Array.size_setD]
    constructor
    · intro hmem
      by_cases hik : i ∈ rest
      · exact ((ih (arr.setD k (v k)) i hsize).1) hik
      · have hk : i = k := by
          rcases List.mem_cons.mp hmem with h | h
          · exact h
          · exact absurd h hik
        subst hk
        rw [List.foldl_cons, ((ih (arr.setD i (v i)) i hsize).2) hik]
        unfold Array.setD
        rw [dif_pos hi]
        rw [Array.getD, dif_pos (by rwa [Array.size_set])]
        simp [Array.get_set_eq]
    · intro hmem
      have hik : i ∉ rest := fun h => hmem (by simp [h])
      have hk : ¬ i = k := fun h => hmem (by simp [h])
      rw [List.foldl_cons, ((ih (arr.setD k (v k)) i hsize).2) hik]
      unfold Array.setD
      by_cases hks : k < arr.size
      · rw [dif_pos hks]
        rw [Array.getD, dif_pos (by rwa [Array.size_set]), Array.getD, dif_pos hi]
        exact Array.get_set_ne arr ⟨k, hks⟩ (v k) hi (fun h => hk h.symm)
      · rw [dif_neg hks]

/-- C7: under any completion schedule covering every index, the result
slice has the input's length, slot `i` holds the outcome of processing
item `i`, a slot whose processor erred carries exactly that error, and
every successfully processed slot carries the processor's result with a
nil error. -/
theorem claim_c7_batch_order :
    ∀ {T R : Type} (f : T → Except GoErr R) (items : List T) (order : List Nat),
      (∀ i, i < items.length → i ∈ order) →
      ((batchProcess f items order).size = items.length ∧
       (∀ i, i < items.length →
         (batchProcess f items order).getD i ⟨0, none, none⟩ = processOutcome f items i)) ∧
      (∀ j item e, items.get? j = some item → f item = .error e →
        ((batchProcess f items order).getD j ⟨0, none, none⟩).error = some e ∧
        ((batchProcess f items order).getD j ⟨0, none, none⟩).index = j) ∧
      (∀ k item r, items.get? k = some item → f item = .ok r →
        ((batchProcess f items order).getD k ⟨0, none, none⟩).result = some r ∧
        ((batchProcess f items order).getD k ⟨0, none, none⟩).error = none) := by
  intro T R f items order hcover
  have hsize : (batchProcess f items order).size = items.length := by
    unfold batchProcess
    rw [batchFold_size]
    exact Array.size_mkArray _ _
  have hget : ∀ i, i < items.length →
      (batchProcess f items order).getD i ⟨0, none, none⟩ = processOutcome f items i := by
    intro i hi
    unfold batchProcess
    exact (batchFold_get (processOutcome f items) ⟨0, none, none⟩ order
      (Array.mkArray items.length ⟨0, none, none⟩) i
      (by rwa [Array.size_mkArray])).1 (hcover i hi)
  refine ⟨⟨hsize, hget⟩, ?_, ?_⟩
  · intro j item e hj he
    have hjlen : j < items.length := (List.get?_eq_some.mp hj).1
    rw [hget j hjlen]
    rw [List.get?_eq_getElem?] at hj
    simp [processOutcome, hj, he]
  · intro k item r hk hr
    have hklen : k < items.length := (List.get?_eq_some.mp hk).1
    rw [hget k hklen]
    rw [List.get?_eq_getElem?] at hk
    simp [processOutcome, hk, hr]

/-- Witness for C7: four items, the schedule `[2,0,3,1]` (workers finish
out of order, as with `maxConcurrent = 2`), the processor failing on the
item at index 1. -/
theorem claim_c7_batch_order_witness :
    ((batchProcess (fun n : Nat => if n = 1 then .error "boom" else .ok (10 * n))
        [5, 1, 7, 9] [2, 0, 3, 1]).getD 1 ⟨0, none, none⟩).error = some "boom" ∧
    ((batchProcess (fun n : Nat => if n = 1 then .error "boom" else .ok (10 * n))
        [5, 1, 7, 9] [2, 0, 3, 1]).getD 0 ⟨0, none, none⟩).result = some 50 ∧
    (batchProcess (fun n : Nat => if n = 1 then .error "boom" else .ok (10 * n))
        [5, 1, 7, 9] [2, 0, 3, 1]).size = 4 := by
  have h := claim_c7_batch_order (fun n : Nat => if n = 1 then .error "boom" else .ok (10 * n))
    [5, 1, 7, 9] [2, 0, 3, 1] (by decide)
  refine ⟨(h.2.1 1 1 "boom" rfl rfl).1, (h.2.2 0 5 50 rfl rfl).1, h.1.1⟩

end Verifiers

namespace Verifiers

/-! ## C1 — multi-turn loop termination and turn bound -/

theorem countAssistant_append (l1 l2 : List Message) :
    countAssistant (l1 ++ l2) = countAssistant l1 + countAssistant l2 := by
  unfold countAssistant
  rw [List.filter_append, List.length_append]

theorem mtLoopGo_turn_bound (env : MTEnv) (client : MTClient) (maxT : Nat) :
    ∀ (fuel : Nat) (msgs completion : List Message) (state : GoMap) (turn : Nat)
      (res : LoopResult),
      mtLoopGo env client maxT fuel msgs completion state turn = .ok res →
      res.turn ≤ turn + fuel := by
  intro fuel
  induction fuel with
  | zero =>
    intro msgs completion state turn res h
    simp only [mtLoopGo] at h
    cases h
    exact Nat.le_add_right _ _
  | succ fuel ih =>
    intro msgs completion state turn res h
    simp only [mtLoopGo] at h
    split at h
    · cases h
      exact Nat.le_add_right _ _
    · split at h
      · exact absurd h (by simp)
      · split at h
        · cases h
          show turn + 1 ≤ turn + (fuel + 1)
          omega
        · split at h
          · exact absurd h (by simp)
          · have := ih _ _ _ _ _ h
            omega

theorem mtLoopGo_assistant_count (env : MTEnv) (client : MTClient) (maxT : Nat)
    (henv : ∀ ms st m st', env.envResponse ms st = .ok (m, st') → ¬m.role = "assistant") :
    ∀ (fuel : Nat) (msgs completion : List Message) (state : GoMap) (turn : Nat)
      (res : LoopResult),
      mtLoopGo env client maxT fuel msgs completion state turn = .ok res →
      turn ≤ res.turn ∧
      countAssistant res.msgs + turn = countAssistant msgs + res.turn := by
  intro fuel
  induction fuel with
  | zero =>
    intro msgs completion state turn res h
    simp only [mtLoopGo] at h
    cases h
    exact ⟨le_refl _, rfl⟩
  | succ fuel ih =>
    intro msgs completion state turn res h
    simp only [mtLoopGo] at h
    split at h
    · cases h
      exact ⟨le_refl _, rfl⟩
    · split at h
      · exact absurd h (by simp)
      · rename_i response hresp
        have hone : countAssistant (msgs ++ [⟨"assistant", response⟩]) =
            countAssistant msgs + 1 := by
          rw [countAssistant_append]
          rfl
        split at h
        · cases h
          refine ⟨Nat.le_succ _, ?_⟩
          show countAssistant (msgs ++ [⟨"assistant", response⟩]) + turn =
            countAssistant msgs + (turn + 1)
          rw [hone]
          omega
        · split at h
          · exact absurd h (by simp)
          · rename_i envMsg state' henvr
            obtain ⟨h1, h2⟩ := ih _ _ _ _ _ h
            have hzero : countAssistant [envMsg] = 0 := by
              unfold countAssistant
              have hrole := henv _ _ envMsg state' (by rw [henvr])
              have hb : (envMsg.role == "assistant") = false := beq_eq_false_iff_ne.mpr hrole
              simp [List.filter, hb]
            have hone' : countAssistant [(⟨"assistant", response⟩ : Message)] = 1 := rfl
            rw [countAssistant_append, countAssistant_append, hone', hzero] at h2
            constructor
            · omega
            · omega

/-- C1: for every environment, client, prompt and `maxTurns`, the loop
(total by construction — the fuel mirrors the `turn < maxTurns` guard)
appends at most `effMaxTurns maxTurns` assistant messages, where the
budget is 10 when a non-positive `maxTurns` is supplied and `maxTurns`
itself otherwise — whatever the completion predicate does. -/
theorem claim_c1_multiturn_bounded :
    ∀ (env : MTEnv) (client : MTClient) (prompt : List Message) (answer : String)
      (maxTurns : Int) (r : Rollout) (t : Nat),
      baseMultiTurnRollout env client prompt answer maxTurns = .ok (r, t) →
      t ≤ effMaxTurns maxTurns ∧
      (maxTurns ≤ 0 → effMaxTurns maxTurns = 10) ∧
      (0 < maxTurns → (effMaxTurns maxTurns : ℤ) = maxTurns) ∧
      ((∀ ms st m st', env.envResponse ms st = .ok (m, st') → ¬m.role = "assistant") →
        countAssistant r.messages = countAssistant prompt + t) := by
  intro env client prompt answer maxTurns r t h
  simp only [baseMultiTurnRollout] at h
  split at h
  · exact absurd h (by simp)
  · rename_i res hloop
    injection h with h1
    injection h1 with hr ht
    subst ht
    refine ⟨?_, ?_, ?_, ?_⟩
    · simpa using mtLoopGo_turn_bound env client (effMaxTurns maxTurns) _ _ _ _ _ _ hloop
    · intro hle
      unfold effMaxTurns
      rw [if_pos hle]
    · intro hpos
      unfold effMaxTurns
      rw [if_neg (by omega)]
      omega
    · intro henv
      have hcount := (mtLoopGo_assistant_count env client (effMaxTurns maxTurns) henv
        _ _ _ _ _ _ hloop).2
      subst hr
      simpa using hcount

/-- Witness for C1: an environment that never completes, `maxTurns = -1`
(default 10 applies): exactly ten assistant messages are appended. -/
theorem claim_c1_multiturn_bounded_witness :
    10 ≤ effMaxTurns (-1) ∧
    countAssistant c1wRollout.messages = countAssistant [⟨"user", "q"⟩] + 10 := by
  have h := claim_c1_multiturn_bounded neverDoneEnv helloClient [⟨"user", "q"⟩] "a" (-1)
    c1wRollout 10 (by rfl)
  refine ⟨le_of_eq (h.2.1 (by norm_num)).symm, ?_⟩
  refine h.2.2.2 ?_
  intro ms st m st' hr
  simp only [neverDoneEnv] at hr
  injection hr with hp
  cases hp
  decide

end Verifiers

namespace Verifiers

/-! ## C2 — subtype scoring after the generic loop -/

/-- C2 counterexample: a `CodeMathEnv` rollout whose response parses to
the correct answer still comes back scored 0.0 — `CodeMathEnv.Rollout`
never re-parses or re-scores, although its own rubric would give the
response 17/20. -/
theorem claim_c2_counterexample :
    codeMathRollout cexEval cexClient cexPrompt "4" 10 = .ok c2cexRollout ∧
    c2cexRollout.score = 0 ∧
    mathComputeReward newCodeMathRubric c2cexRollout.response "4" = .ok (17 / 20) ∧
    (17 : ℚ) / 20 ≠ 0 := by
  refine ⟨by rfl, rfl, ?_, by norm_num⟩
  have hbox : extractBoxedAnswer "4" = "4" := by rfl
  unfold mathComputeReward
  rw [hbox]
  have hca : codeMathCorrectAnswer c2cexRollout.response "4" = .ok 1 := by rfl
  have hce : evaluateCodeExecution c2cexRollout.response = 0.5 := by rfl
  simp only [BaseRubric.computeReward, newCodeMathRubric, runRewardFuncs, List.tail_cons,
    List.isEmpty, hca, hce]
  norm_num

/-- C2 amended: only `DialogMultiTurnEnv.Rollout` re-parses the response
and propagates parse/scoring errors; `DoubleCheckEnv.Rollout` re-parses
the last assistant message but swallows parse and scoring errors,
returning the rollout still scored 0.0 with no error; `SmolaToolEnv`
swallows trace-scoring errors likewise; and `CodeMathEnv.Rollout`
returns the generic loop's rollout unchanged, never re-scoring. -/
theorem claim_c2_amended :
    (∀ (evalExprs : String → String × Bool) (client : MTClient) (prompt : List Message)
       (answer : String) (maxT : Int),
      codeMathRollout evalExprs client prompt answer maxT =
        (baseMultiTurnRollout (codeMathEnv evalExprs) client prompt answer maxT).map
          (fun pr => pr.1)) ∧
    (∀ (env : MTEnv) (client : MTClient) (prompt : List Message) (answer : String)
       (maxT : Int) (p : ParserIface) (rubric : Option RubricIface)
       (rollout : Rollout) (t : Nat) (e : GoErr),
      baseMultiTurnRollout env client prompt answer maxT = .ok (rollout, t) →
      rollout.response ≠ "" → p.parse rollout.response = .error e →
      dialogRollout env client prompt answer maxT (some p) rubric =
        .error ("failed to parse response: " ++ e)) ∧
    (∀ (env : MTEnv) (client : MTClient) (prompt : List Message) (answer : String)
       (maxT : Int) (p : ParserIface) (rb : RubricIface)
       (rollout : Rollout) (t : Nat) (parsed : String) (s : ℚ),
      baseMultiTurnRollout env client prompt answer maxT = .ok (rollout, t) →
      rollout.response ≠ "" → p.parse rollout.response = .ok parsed →
      rb.computeReward parsed answer = .ok s →
      dialogRollout env client prompt answer maxT (some p) (some rb) =
        .ok { rollout with score := s }) ∧
    (∀ (env : MTEnv) (client : MTClient) (prompt : List Message) (answer : String)
       (p : ParserIface) (rubric : Option RubricIface)
       (rollout : Rollout) (t : Nat) (e : GoErr),
      baseMultiTurnRollout env client prompt answer 2 = .ok (rollout, t) →
      rollout.messages ≠ [] → lastAssistantContent rollout.messages ≠ "" →
      p.parse (lastAssistantContent rollout.messages) = .error e →
      doubleCheckRollout env client prompt answer (some p) rubric = .ok rollout) ∧
    (∀ (env : MTEnv) (client : MTClient) (prompt : List Message) (answer : String)
       (maxT : Int)
       (crwt : String → String → List ToolExecution → Except GoErr ℚ)
       (rollout : Rollout) (t : Nat) (e : GoErr),
      baseMultiTurnRollout env client prompt answer maxT = .ok (rollout, t) →
      crwt rollout.response answer [] = .error e →
      smolaToolRollout env client prompt answer maxT crwt = .ok rollout) := by
  refine ⟨?_, ?_, ?_, ?_, ?_⟩
  · intro evalExprs client prompt answer maxT
    unfold codeMathRollout
    rcases hb : baseMultiTurnRollout (codeMathEnv evalExprs) client prompt answer maxT with
      e | pr
    · rfl
    · rfl
  · intro env client prompt answer maxT p rubric rollout t e hb hne hp
    unfold dialogRollout
    rw [hb]
    simp only [if_neg (by simpa using hne)]
    rw [if_pos hne, hp]
  · intro env client prompt answer maxT p rb rollout t parsed s hb hne hp hs
    unfold dialogRollout
    simp only [hb]
    rw [if_pos hne]
    simp only [hp, hs]
  · intro env client prompt answer p rubric rollout t e hb hne hlast hp
    unfold doubleCheckRollout
    simp only [hb]
    rw [if_pos hne, if_pos hlast]
    simp only [hp]
  · intro env client prompt answer maxT crwt rollout t e hb hc
    unfold smolaToolRollout
    simp only [hb]
    rw [hc]

/-- Witness for the amended C2: a concrete dialog run whose parser fails
(error propagated), the same run through the double-check rollout
(error swallowed, score 0.0), and a concrete code-math delegation. -/
theorem claim_c2_amended_witness :
    dialogRollout (dialogEnv "DONE") c2wClient [⟨"user", "q"⟩] "x" 10
        (some failingParserIface) none = .error ("failed to parse response: " ++ "bad") ∧
    doubleCheckRollout (dialogEnv "DONE") c2wClient [⟨"user", "q"⟩] "x"
        (some failingParserIface) none = .ok c2wRollout ∧
    c2wRollout.score = 0 ∧
    codeMathRollout cexEval cexClient cexPrompt "4" 10 =
      (baseMultiTurnRollout (codeMathEnv cexEval) cexClient cexPrompt "4" 10).map
        (fun pr => pr.1) := by
  refine ⟨?_, ?_, rfl, claim_c2_amended.1 cexEval cexClient cexPrompt "4" 10⟩
  · exact claim_c2_amended.2.1 (dialogEnv "DONE") c2wClient [⟨"user", "q"⟩] "x" 10
      failingParserIface none c2wRollout 1 "bad" (by rfl) (by decide) (by rfl)
  · exact claim_c2_amended.2.2.2.1 (dialogEnv "DONE") c2wClient [⟨"user", "q"⟩] "x"
      failingParserIface none c2wRollout 1 "bad" (by rfl) (by decide) (by decide) (by rfl)

end Verifiers

